import Mathlib

/-!
Shallow embedding of the CCAL association scoring engine, `src/ccal/analyze.py`.

Modelling conventions
* Python floats flowing through the engine are `F := Option ℚ`: `some q` is a finite
  value, `none` is NaN.  Every Python comparison involving NaN is `False`, which the
  comparison functions below reproduce.
* pandas frames are modelled as association lists with unique labels (the engine is
  only ever run on frames with unique feature names and column names; pandas
  label-based merging assumes as much).
* The similarity metric (`information_coefficient`, imported from `.information`,
  explicitly an external collaborator per the spec) is an injected parameter
  `ic : List F → List F → F`.
* The margin-of-error statistic `z_critical * std / sqrt(n)` (scipy `norm.ppf`,
  float `std`/`sqrt`, line 333-337) is transcendental float arithmetic performed by
  external libraries; it is injected as a parameter `moeStat : List F → F` applied to
  the list of replicate scores of one feature.  The `confidence` parameter of the
  source only feeds this statistic and the column label, so it is absorbed into
  `moeStat`.
* Randomness: the source draws from numpy's global generator.  The draws themselves
  are injected: `permRef i` is the content of `shuffled_ref` after the `i`-th
  `np.random.shuffle` call (line 347), and `randCol c k` is the column position of the
  `k`-th element of the `np.random.choice` draw for bootstrap replicate `c` (line 325).
* `ncols` is `features.shape[1]` (a pandas frame keeps its column count even with
  zero rows, while a list-of-rows model loses it, so it is passed explicitly).
* Python's `/` on integers is true division raising `ZeroDivisionError` on a zero
  divisor; `pydiv` returns `Except` accordingly, and the permutation p-value loop
  (lines 353-362) propagates the exception.
* pandas `sort_values` places NaN last both ascending and descending; the outer
  merge of the confidence-interval column (line 338, pandas 0.x) sorts the union of
  the indexes lexicographically, modelled by `withMoE`.
* `multipletests(..., method='fdr_bh')` is an external statsmodels dependency;
  `fdrBH` is modelled from the spec's description of Benjamini-Hochberg (§4.4).
-/

/-- Python float values inside the engine: `some q` finite, `none` NaN. -/
abbrev F : Type := Option ℚ

/-- Python `>` on possibly-NaN values (`permutation_scores > score`, lines 354, 359). -/
def fgt : F → F → Bool
  | some a, some b => decide (b < a)
  | _, _ => false

/-- Python `>=` on possibly-NaN values (quantile selection, lines 311, 256). -/
def fge : F → F → Bool
  | some a, some b => decide (b ≤ a)
  | _, _ => false

/-- Python `<=` on possibly-NaN values (quantile selection, lines 314, 258). -/
def fle : F → F → Bool
  | some a, some b => decide (a ≤ b)
  | _, _ => false

/-- Sort key of pandas `sort_values(ascending=True)`: ascending, NaN last. -/
def fkeyLe : F → F → Bool
  | some a, some b => decide (a ≤ b)
  | some _, none => true
  | none, some _ => false
  | none, none => true

/-- Sort key of pandas `sort_values(ascending=False)`: descending, NaN last. -/
def fkeyGe : F → F → Bool
  | some a, some b => decide (b ≤ a)
  | some _, none => true
  | none, some _ => false
  | none, none => true

/-- Row ordering used by `scores.sort_values(metric)` (line 300). -/
def rowLe {α : Type} (a b : α × F) : Prop := fkeyLe a.2 b.2 = true

instance {α : Type} : DecidableRel (rowLe (α := α)) :=
  fun a b => inferInstanceAs (Decidable (fkeyLe a.2 b.2 = true))

instance {α : Type} : IsTotal (α × F) rowLe where
  total a b := by
    unfold rowLe
    rcases a with ⟨a1, _ | x⟩ <;> rcases b with ⟨b1, _ | y⟩ <;> simp only [fkeyLe] <;>
      simp only [decide_eq_true_eq, Bool.true_eq, Bool.false_eq_true, or_true,
        true_or, or_self]
    exact le_total x y

instance {α : Type} : IsTrans (α × F) rowLe where
  trans a b c hab hbc := by
    unfold rowLe at *
    rcases a with ⟨a1, _ | x⟩ <;> rcases b with ⟨b1, _ | y⟩ <;>
      rcases c with ⟨c1, _ | z⟩ <;>
        simp_all only [fkeyLe, decide_eq_true_eq, Bool.false_eq_true]
    exact le_trans hab hbc

/-- `scores.sort_values(metric)` (line 300): ascending by metric value, NaN last. -/
def sortScores {α : Type} (l : List (α × F)) : List (α × F) := l.insertionSort rowLe

/-- Ordering of rationals used inside the quantile computation. -/
def qLe (a b : ℚ) : Prop := a ≤ b

instance : DecidableRel qLe := fun a b => inferInstanceAs (Decidable (a ≤ b))

/-- pandas `Series.quantile(q)` with the default linear interpolation; NaN entries are
skipped, and the quantile of an all-NaN (or empty) series is NaN. -/
def quantile (vals : List F) (q : ℚ) : F :=
  let xs := (vals.filterMap id).insertionSort qLe
  if xs = [] then none
  else
    let m := xs.length
    let h := q * ((m : ℚ) - 1)
    let lo := (Int.floor h).toNat
    let hi := min (lo + 1) (m - 1)
    some (xs.getD lo 0 + (h - (Int.floor h : ℚ)) * (xs.getD hi 0 - xs.getD lo 0))

/-- Shared selection policy (lines 310-320; duplicated verbatim in
`rank_features_against_reference`, lines 255-263): quantile threshold when
`nfeatures < 1`, otherwise top and bottom `nfeatures` of the metric-sorted table
(`scores.index[:nfeatures].tolist() + scores.index[-nfeatures:].tolist()`). -/
def selectIndices {α : Type} (scores : List (α × F)) (nfeatures : ℚ) : List α :=
  if nfeatures < 1 then
    (scores.filter (fun r =>
      fge r.2 (quantile (scores.map Prod.snd) nfeatures) ||
      fle r.2 (quantile (scores.map Prod.snd) (1 - nfeatures)))).map Prod.fst
  else
    (scores.take (Int.floor nfeatures).toNat).map Prod.fst ++
      (scores.drop (scores.length - (Int.floor nfeatures).toNat)).map Prod.fst

/-- Bootstrap sample size `math.ceil(0.632 * features.shape[1])` (line 303). -/
def nsample (ncols : ℕ) : ℕ := (Int.ceil ((0.632 : ℚ) * ncols)).toNat

/-- Bootstrap confidence-interval stage (lines 302-338).  Returns `none` (no
margin-of-error column) when skipped, otherwise the `'{confidence} MoE'` column:
one value per selected feature, `moeStat` applied to its replicate scores. -/
def bootstrapMoE {α : Type} [DecidableEq α] (ic : List F → List F → F)
    (moeStat : List F → F) (randCol : ℕ → ℕ → ℕ) (feats : List (α × List F))
    (ref : List F) (scores : List (α × F)) (nfeatures : ℚ) (nsampling ncols : ℕ) :
    Option (List (α × F)) :=
  if nsampling < 2 then none
  else if nsample ncols < 3 then none
  else
    some ((selectIndices scores nfeatures).map (fun idx =>
      let srow := ((feats.find? (fun r => r.1 = idx)).map Prod.snd).getD []
      (idx, moeStat ((List.range nsampling).map (fun c =>
        let cols := (List.range (nsample ncols)).map (randCol c)
        ic (cols.map (fun j => srow.getD j none)) (cols.map (fun j => ref.getD j none)))))))

/-- Lexicographic row ordering on labels, used by the pandas 0.x outer merge. -/
def nameLe {α : Type} [LinearOrder α] (a b : α × F) : Prop := a.1 ≤ b.1

instance {α : Type} [LinearOrder α] : DecidableRel (nameLe (α := α)) :=
  fun a b => inferInstanceAs (Decidable (a.1 ≤ b.1))

/-- Sort rows lexicographically by label (pandas outer index join result order). -/
def sortByName {α : Type} [LinearOrder α] (l : List (α × F)) : List (α × F) :=
  l.insertionSort nameLe

/-- State of the `scores` frame after the confidence-interval merge (line 338).
When the bootstrap was skipped the frame is unchanged (no MoE column, modelled by a
`none` entry per row); otherwise the pandas 0.x outer merge on the index sorts the
rows lexicographically and fills NaN/absent MoE for unselected features. -/
def withMoE {α : Type} [LinearOrder α] [DecidableEq α] (scores : List (α × F)) :
    Option (List (α × F)) → List (α × F × Option F)
  | none => scores.map (fun r => (r.1, r.2, none))
  | some ci =>
      (sortByName scores).map
        (fun r => (r.1, r.2, (ci.find? (fun p => p.1 = r.1)).map Prod.snd))

/-- Python 3 `/` on nonnegative integers: true division, `ZeroDivisionError` on a
zero divisor. -/
def pydiv (a b : ℕ) : Except String ℚ :=
  if b = 0 then .error "ZeroDivisionError" else .ok ((a : ℚ) / (b : ℚ))

/-- One row of `permutation_pvals_and_fdrs` before the FDR column is written. -/
structure PRow (α : Type) where
  name : α
  score : F
  moe : Option F
  localP : ℚ
  globalP : ℚ
deriving DecidableEq

/-- One row of the final score table returned by `compute_against_reference`. -/
structure Row (α : Type) where
  name : α
  score : F
  moe : Option F
  localP : ℚ
  globalP : ℚ
  fdr : ℚ
deriving DecidableEq

/-- The final score table: the optional `'{confidence} MoE'` column (absent when the
bootstrap stage was skipped) and the merged, final-sorted rows. -/
structure ResultTable (α : Type) where
  moeCol : Option (List (α × F))
  rows : List (Row α)
deriving DecidableEq

/-- One iteration of the permutation p-value loop (lines 354-362), for the row at
position `i` of the enumerated frame whose true score is `v`:
`local_pval = float(sum(permutation_scores[i, :] > score) / nperm)` with
`float(1 / nperm)` substituted when it is zero, and likewise the global p-value
over the flattened null scores with denominator `nperm * features.shape[0]`. -/
def pvalCell (permScores : List (List F)) (allScores : List F) (nperm nfeat i : ℕ)
    (v : F) : Except String (ℚ × ℚ) :=
  match pydiv (((permScores.getD i []).filter (fun x => fgt x v)).length) nperm with
  | .error e => .error e
  | .ok lp0 =>
    match (if lp0 = 0 then pydiv 1 nperm else .ok lp0) with
    | .error e => .error e
    | .ok lp =>
      match pydiv ((allScores.filter (fun x => fgt x v)).length) (nperm * nfeat) with
      | .error e => .error e
      | .ok gp0 =>
        match (if gp0 = 0 then pydiv 1 (nperm * nfeat) else .ok gp0) with
        | .error e => .error e
        | .ok gp => .ok (lp, gp)

/-- Permutation p-value loop (lines 352-362).  It enumerates the rows of the
current `scores` frame (metric-sorted, or lexicographically re-sorted by the CI
merge) with a positional counter `i`, but indexes `permutation_scores` — whose
rows are in the original `features` order — with that same `i`
(`permutation_scores[i, :]`, line 354); a raised `ZeroDivisionError` aborts the
loop and propagates out of the engine. -/
def pvalLoop {α : Type} (permScores : List (List F)) (allScores : List F)
    (nperm nfeat : ℕ) : ℕ → List (α × F × Option F) → Except String (List (PRow α))
  | _, [] => .ok []
  | i, r :: rest =>
    match pvalCell permScores allScores nperm nfeat i r.2.1 with
    | .error e => .error e
    | .ok (lp, gp) =>
      match pvalLoop permScores allScores nperm nfeat (i + 1) rest with
      | .error e => .error e
      | .ok rest2 => .ok (⟨r.1, r.2.1, r.2.2, lp, gp⟩ :: rest2)

/-- Ordering of index-value pairs by value, for the BH sort. -/
def idxPLe (a b : ℕ × ℚ) : Prop := a.2 ≤ b.2

instance : DecidableRel idxPLe := fun a b => inferInstanceAs (Decidable (a.2 ≤ b.2))

/-- Running minimum taken from the largest rank down to the smallest. -/
def runningMinRev : List ℚ → List ℚ
  | [] => []
  | q :: rest =>
    match runningMinRev rest with
    | [] => [q]
    | q2 :: tail => min q q2 :: q2 :: tail

/-- Modelled from the spec (§4.4): Benjamini-Hochberg step-up FDR adjustment — sort
p-values ascending, adjust rank `i` to `p * n / i`, take a running minimum from the
largest rank down, clip to `[0, 1]`, restore the original order.  The source
delegates this to `statsmodels.multipletests(method='fdr_bh')` (line 364), an
external dependency whose code is not under `src/`. -/
def fdrBH (ps : List ℚ) : List ℚ :=
  let n := ps.length
  let sorted := ((List.range n).zip ps).insertionSort idxPLe
  let adj := ((List.range n).zip sorted).map
    (fun x => (x.2.1, x.2.2 * (n : ℚ) / ((x.1 : ℚ) + 1)))
  let clipped := (adj.map Prod.fst).zip
    ((runningMinRev (adj.map Prod.snd)).map (fun q => min q 1))
  (List.range n).map (fun j => ((clipped.find? (fun x => x.1 = j)).map Prod.snd).getD 0)

/-- Score computation stage (lines 294-300): metric per row, sorted ascending. -/
def scoreStage {α : Type} (ic : List F → List F → F) (feats : List (α × List F))
    (ref : List F) : List (α × F) :=
  sortScores (feats.map (fun r => (r.1, ic r.2 ref)))

/-- Null-score matrix (lines 343-349): `permutation_scores[j, i]` is the metric of
the `j`-th feature (original `features` order) against the `i`-th shuffled
reference. -/
def permStage {α : Type} (ic : List F → List F → F) (permRef : ℕ → List F)
    (nperm : ℕ) (feats : List (α × List F)) : List (List F) :=
  feats.map (fun r => (List.range nperm).map (fun i => ic r.2 (permRef i)))

/-- FDR column (lines 364-365): BH over the `'Global P-value'` column of
`permutation_pvals_and_fdrs`, whose index is `features.index` (line 341). -/
def fdrStage {α : Type} [DecidableEq α] (feats : List (α × List F))
    (pv : List (PRow α)) : List (α × ℚ) :=
  (feats.map Prod.fst).zip
    (fdrBH (feats.map (fun r =>
      (((pv.find? (fun x => x.name = r.1)).map PRow.globalP)).getD 0)))

/-- Final merge of the p-value and FDR columns into the scores frame (line 366):
an inner index merge preserving the left (`scores`) row order. -/
def mergeStage {α : Type} [DecidableEq α] (pv : List (PRow α))
    (fdrTab : List (α × ℚ)) : List (Row α) :=
  pv.map (fun x =>
    ⟨x.name, x.score, x.moe, x.localP, x.globalP,
      ((fdrTab.find? (fun p => p.1 = x.name)).map Prod.snd).getD 0⟩)

/-- Row ordering for the final ascending sort. -/
def rowLeF {α : Type} (a b : Row α) : Prop := fkeyLe a.score b.score = true

instance {α : Type} : DecidableRel (rowLeF (α := α)) :=
  fun a b => inferInstanceAs (Decidable (fkeyLe a.score b.score = true))

/-- Row ordering for the final descending sort. -/
def rowGeF {α : Type} (a b : Row α) : Prop := fkeyGe a.score b.score = true

instance {α : Type} : DecidableRel (rowGeF (α := α)) :=
  fun a b => inferInstanceAs (Decidable (fkeyGe a.score b.score = true))

/-- Final `scores.sort_values(metric, ascending=ascending)` (line 368). -/
def finalSort {α : Type} (ascending : Bool) (rows : List (Row α)) : List (Row α) :=
  if ascending then rows.insertionSort rowLeF else rows.insertionSort rowGeF

/-- The scoring engine `compute_against_reference` (lines 273-368): metric dispatch,
score computation, bootstrap confidence intervals, permutation testing, FDR
correction, and the final merge and sort. -/
def compute_against_reference {α : Type} [LinearOrder α] [DecidableEq α]
    (metric : String) (ic : List F → List F → F) (moeStat : List F → F)
    (randCol : ℕ → ℕ → ℕ) (permRef : ℕ → List F) (feats : List (α × List F))
    (ref : List F) (ncols : ℕ) (nfeatures : ℚ) (ascending : Bool)
    (nsampling nperm : ℕ) : Except String (ResultTable α) :=
  if metric = "information_coef" then
    match pvalLoop (permStage ic permRef nperm feats)
        (permStage ic permRef nperm feats).flatten nperm feats.length 0
        (withMoE (scoreStage ic feats ref)
          (bootstrapMoE ic moeStat randCol feats ref (scoreStage ic feats ref)
            nfeatures nsampling ncols)) with
    | .error e => .error e
    | .ok pv =>
      .ok ⟨bootstrapMoE ic moeStat randCol feats ref (scoreStage ic feats ref)
             nfeatures nsampling ncols,
           finalSort ascending (mergeStage pv (fdrStage feats pv))⟩
  else .error ("Unknown metric " ++ metric ++ ".")

/-- A pandas feature frame: column labels and labelled rows whose values are
positionally aligned with the column labels. -/
structure Frame (α : Type) where
  cols : List α
  rows : List (α × List F)
deriving DecidableEq

/-- Column-intersection validation and restriction at the head of
`rank_features_against_reference` (lines 213-222): fail when the feature columns
and the reference index do not intersect, otherwise restrict both inputs to the
intersecting columns. -/
def restrictToIntersection {α : Type} [DecidableEq α] (features : Frame α)
    (ref : List (α × F)) : Except String (Frame α × List (α × F)) :=
  if features.cols.filter (fun c => decide (c ∈ ref.map Prod.fst)) = [] then
    .error "EmptyIntersection"
  else
    .ok (⟨features.cols.filter (fun c => decide (c ∈ ref.map Prod.fst)),
          features.rows.map (fun r =>
            (r.1, (features.cols.filter (fun c => decide (c ∈ ref.map Prod.fst))).map
              (fun c =>
                (((features.cols.zip r.2).find? (fun p => p.1 = c)).map Prod.snd).getD
                  none)))⟩,
         (features.cols.filter (fun c => decide (c ∈ ref.map Prod.fst))).map
           (fun c => (c, ((ref.find? (fun p => p.1 = c)).map Prod.snd).getD none)))

/-- Modelled from the spec (§4.3): the local p-value of a feature is the count of
that same feature's null scores strictly exceeding its own true score, divided by
`n_perms`, floored at `1 / n_perms` when the raw count is zero.  This is the
specification-side definition used to exhibit the divergence of the source's
misaligned indexing; `none` when the feature is absent or `n_perms = 0`. -/
def specLocalPval {α : Type} [DecidableEq α] (ic : List F → List F → F)
    (feats : List (α × List F)) (ref : List F) (permRef : ℕ → List F) (nperm : ℕ)
    (name : α) : Option ℚ :=
  match feats.find? (fun r => r.1 = name) with
  | none => none
  | some r =>
    let trueScore := ic r.2 ref
    let nulls := (List.range nperm).map (fun i => ic r.2 (permRef i))
    let cnt := (nulls.filter (fun x => fgt x trueScore)).length
    if nperm = 0 then none
    else if cnt = 0 then some (1 / (nperm : ℚ)) else some ((cnt : ℚ) / (nperm : ℚ))

deriving instance DecidableEq for Except

/-!  Concrete instances used by counterexamples and witnesses.  The metric is an
injected external collaborator, so any concrete metric exercises the engine; the
dot product below (NaN-propagating, like the float arithmetic it stands for) is
used throughout. -/

/-- A concrete injected metric: NaN-propagating dot product of two value lists. -/
def icDot : List F → List F → F := fun xs ys =>
  (xs.zip ys).foldr (fun p acc =>
    match p.1, p.2, acc with
    | some a, some b, some s => some (a * b + s)
    | _, _, _ => none) (some 0)

/-- A concrete injected margin-of-error statistic (its value is irrelevant to every
claim below). -/
def moeNone : List F → F := fun _ => none

/-- A concrete injected bootstrap column draw. -/
def randZero : ℕ → ℕ → ℕ := fun _ _ => 0

/-- Concrete feature matrix, C1: two features over two columns, chosen so that the
metric-sorted order reverses the original feature order. -/
def featsC1 : List (String × List F) :=
  [("A", [some 0, some 10]), ("B", [some 1, some 0])]

/-- Concrete reference vector, C1. -/
def refC1 : List F := [some 1, some 2]

/-- Concrete shuffle sequence, C1: the first permutation swaps the two reference
values, the second leaves them in place (both are genuine permutations). -/
def permRefC1 : ℕ → List F := fun i => if i = 0 then [some 2, some 1] else [some 1, some 2]

/-- Concrete feature matrix over one column whose first feature contains a NaN, so
its score under the NaN-propagating metric is NaN. -/
def featsN : List (String × List F) := [("A", [none]), ("B", [some 1])]

/-- Concrete reference vector for `featsN`. -/
def refN : List F := [some 1]

/-- Concrete shuffle sequence for `featsN` (the identity permutation each time). -/
def permRefN : ℕ → List F := fun _ => [some 1]

/-- The row of feature B in the result of the concrete NaN run. -/
def rowBN : Row String := ⟨"B", some 1, none, 1, 1 / 2, 1 / 2⟩

/-- The row of feature A (NaN score) in the result of the concrete NaN run. -/
def rowAN : Row String := ⟨"A", none, none, 1, 1 / 2, 1 / 2⟩

/-- The full result table of the concrete NaN run (`n_perms = 1`, bootstrap
skipped, descending final sort, NaN row last). -/
def tN : ResultTable String := ⟨none, [rowBN, rowAN]⟩

/-- Concrete four-row score table with distinct names and distinct values. -/
def t4C : List (String × F) :=
  [("A", some 1), ("B", some 2), ("C", some 3), ("D", some 4)]

/-- Concrete feature frame whose single column does not occur in `refC7`. -/
def frameC7 : Frame String := ⟨["c1"], [("A", [some 1])]⟩

/-- Concrete reference whose index is disjoint from the columns of `frameC7`. -/
def refC7 : List (String × F) := [("c2", some 5)]

/-! Helper lemmas about the embedded engine. -/

lemma fgt_none (x : F) : fgt x none = false := by cases x <;> rfl

lemma getD_length_le {ps : List (List F)} {n : ℕ}
    (h : ∀ r ∈ ps, r.length = n) (i : ℕ) : (ps.getD i []).length ≤ n := by
  rcases Nat.lt_or_ge i ps.length with hi | hi
  · rw [List.getD_eq_getElem _ _ hi]
    exact (h _ (List.getElem_mem hi)).le
  · rw [List.getD_eq_default _ _ hi]
    exact Nat.zero_le n

lemma flatten_length_uniform {l : List (List F)} {n : ℕ}
    (h : ∀ r ∈ l, r.length = n) : l.flatten.length = l.length * n := by
  induction l with
  | nil => simp
  | cons a l ih =>
    simp only [List.flatten_cons, List.length_append, List.length_cons]
    rw [h a (by simp), ih (fun r hr => h r (by simp [hr]))]
    ring

lemma mem_finalSort {α : Type} {ascending : Bool} {rows : List (Row α)} {r : Row α} :
    r ∈ finalSort ascending rows ↔ r ∈ rows := by
  unfold finalSort
  split <;> exact List.mem_insertionSort _

lemma scoreStage_length {α : Type} (ic : List F → List F → F)
    (feats : List (α × List F)) (ref : List F) :
    (scoreStage ic feats ref).length = feats.length := by
  unfold scoreStage sortScores
  rw [List.length_insertionSort, List.length_map]

lemma withMoE_length {α : Type} [LinearOrder α] [DecidableEq α]
    (scores : List (α × F)) (mo : Option (List (α × F))) :
    (withMoE scores mo).length = scores.length := by
  cases mo <;> simp [withMoE, sortByName, List.length_insertionSort]

lemma permStage_row_length {α : Type} (ic : List F → List F → F)
    (permRef : ℕ → List F) (nperm : ℕ) (feats : List (α × List F)) :
    ∀ row ∈ permStage ic permRef nperm feats, row.length = nperm := by
  intro row hrow
  obtain ⟨r, _, rfl⟩ := List.mem_map.mp hrow
  simp

lemma permStage_flatten_length {α : Type} (ic : List F → List F → F)
    (permRef : ℕ → List F) (nperm : ℕ) (feats : List (α × List F)) :
    (permStage ic permRef nperm feats).flatten.length = feats.length * nperm := by
  rw [flatten_length_uniform (permStage_row_length ic permRef nperm feats)]
  simp [permStage]

lemma pydiv_ok_elim {a b : ℕ} {q : ℚ} (h : pydiv a b = .ok q) :
    b ≠ 0 ∧ q = (a : ℚ) / (b : ℚ) := by
  unfold pydiv at h
  split at h
  · simp at h
  · rename_i hb
    injection h with h2
    exact ⟨hb, h2.symm⟩

lemma pydiv_zero (a : ℕ) : pydiv a 0 = .error "ZeroDivisionError" := by
  unfold pydiv
  rw [if_pos rfl]

lemma pydiv_ok {a b : ℕ} (hb : b ≠ 0) : pydiv a b = .ok ((a : ℚ) / (b : ℚ)) := by
  unfold pydiv
  rw [if_neg hb]

lemma pvalCell_ok_elim {ps : List (List F)} {as : List F} {np nf i : ℕ} {v : F}
    {lp gp : ℚ} (h : pvalCell ps as np nf i v = .ok (lp, gp)) :
    np ≠ 0 ∧ np * nf ≠ 0 ∧
      ((((ps.getD i []).filter (fun x => fgt x v)).length = 0 ∧ lp = 1 / (np : ℚ)) ∨
        (1 ≤ ((ps.getD i []).filter (fun x => fgt x v)).length ∧
          lp = (((ps.getD i []).filter (fun x => fgt x v)).length : ℚ) / (np : ℚ))) ∧
      (((as.filter (fun x => fgt x v)).length = 0 ∧
          gp = 1 / ((np : ℚ) * (nf : ℚ))) ∨
        (1 ≤ (as.filter (fun x => fgt x v)).length ∧
          gp = ((as.filter (fun x => fgt x v)).length : ℚ) / ((np : ℚ) * (nf : ℚ)))) := by
  rw [pvalCell] at h
  split at h
  · simp at h
  · rename_i lp0 hlp0
    split at h
    · simp at h
    · rename_i lpv hlpv
      split at h
      · simp at h
      · rename_i gp0 hgp0
        split at h
        · simp at h
        · rename_i gpv hgpv
          injection h with h2
          injection h2 with e1 e2
          subst e1
          subst e2
          obtain ⟨hnp, rfl⟩ := pydiv_ok_elim hlp0
          obtain ⟨hnpnf, rfl⟩ := pydiv_ok_elim hgp0
          refine ⟨hnp, hnpnf, ?_, ?_⟩
          · split at hlpv
            · rename_i hcond
              obtain ⟨-, rfl⟩ := pydiv_ok_elim hlpv
              left
              refine ⟨?_, by norm_num⟩
              rcases div_eq_zero_iff.mp hcond with h5 | h5
              · exact_mod_cast h5
              · exact absurd h5 (by exact_mod_cast hnp)
            · rename_i hcond
              injection hlpv with e3
              right
              constructor
              · rcases Nat.eq_zero_or_pos
                    ((ps.getD i []).filter (fun x => fgt x v)).length with h5 | h5
                · exact absurd (by rw [h5]; norm_num) hcond
                · exact h5
              · exact e3.symm
          · split at hgpv
            · rename_i hcond
              obtain ⟨-, rfl⟩ := pydiv_ok_elim hgpv
              left
              refine ⟨?_, by push_cast; ring⟩
              rcases div_eq_zero_iff.mp hcond with h5 | h5
              · exact_mod_cast h5
              · exact absurd h5 (by exact_mod_cast hnpnf)
            · rename_i hcond
              injection hgpv with e3
              right
              constructor
              · rcases Nat.eq_zero_or_pos
                    (as.filter (fun x => fgt x v)).length with h5 | h5
                · exact absurd (by rw [h5]; norm_num) hcond
                · exact h5
              · rw [← e3]
                push_cast
                ring

lemma pvalLoop_cons_elim {α : Type} {ps : List (List F)} {as : List F} {np nf i : ℕ}
    {r : α × F × Option F} {rest : List (α × F × Option F)} {out : List (PRow α)}
    (h : pvalLoop ps as np nf i (r :: rest) = .ok out) :
    ∃ lp gp out2,
      out = ⟨r.1, r.2.1, r.2.2, lp, gp⟩ :: out2 ∧
      pvalCell ps as np nf i r.2.1 = .ok (lp, gp) ∧
      pvalLoop ps as np nf (i + 1) rest = .ok out2 := by
  rw [pvalLoop] at h
  split at h
  · simp at h
  · rename_i lp gp hcell
    split at h
    · simp at h
    · rename_i out2 hrest
      injection h with h2
      exact ⟨lp, gp, out2, h2.symm, hcell, hrest⟩

lemma pvalLoop_nil_elim {α : Type} {ps : List (List F)} {as : List F} {np nf i : ℕ}
    {out : List (PRow α)} (h : pvalLoop ps as np nf i ([] : List (α × F × Option F)) = .ok out) :
    out = [] := by
  rw [pvalLoop] at h
  injection h with h2
  exact h2.symm

lemma pvalLoop_zero_nperm {α : Type} (ps : List (List F)) (as : List F) (nf i : ℕ)
    (r : α × F × Option F) (rest : List (α × F × Option F)) :
    pvalLoop ps as 0 nf i (r :: rest) = .error "ZeroDivisionError" := by
  rw [pvalLoop, pvalCell, pydiv_zero]

lemma pvalLoop_ok_bounds {α : Type} {ps : List (List F)} {as : List F} {np nf : ℕ}
    (hrow : ∀ row ∈ ps, row.length = np) (has : as.length = nf * np) :
    ∀ (i : ℕ) (l : List (α × F × Option F)) (out : List (PRow α)),
      pvalLoop ps as np nf i l = .ok out →
      ∀ x ∈ out,
        (1 / (np : ℚ) ≤ x.localP ∧ x.localP ≤ 1) ∧
        (1 / ((np : ℚ) * (nf : ℚ)) ≤ x.globalP ∧ x.globalP ≤ 1) := by
  intro i l
  induction l generalizing i with
  | nil =>
    intro out h x hx
    rw [pvalLoop_nil_elim h] at hx
    simp at hx
  | cons r rest ih =>
    intro out h x hx
    obtain ⟨lp, gp, out2, rfl, hcell, hrest⟩ := pvalLoop_cons_elim h
    rcases List.mem_cons.mp hx with rfl | hx2
    · obtain ⟨hnp, hnpnf, hlp, hgp⟩ := pvalCell_ok_elim hcell
      have hnpq : (0 : ℚ) < (np : ℚ) := by exact_mod_cast Nat.pos_of_ne_zero hnp
      have hnp1 : (1 : ℚ) ≤ (np : ℚ) := by
        exact_mod_cast Nat.one_le_iff_ne_zero.mpr hnp
      have hnfq : (0 : ℚ) < (nf : ℚ) := by
        rcases Nat.eq_zero_or_pos nf with h0 | h0
        · exact absurd (by rw [h0, Nat.mul_zero]) hnpnf
        · exact_mod_cast h0
      have hnpnfq : (0 : ℚ) < (np : ℚ) * (nf : ℚ) := mul_pos hnpq hnfq
      have hnpnf1 : (1 : ℚ) ≤ (np : ℚ) * (nf : ℚ) := by
        have := Nat.one_le_iff_ne_zero.mpr hnpnf
        calc (1 : ℚ) ≤ ((np * nf : ℕ) : ℚ) := by exact_mod_cast this
          _ = (np : ℚ) * (nf : ℚ) := by push_cast; ring
      constructor
      · rcases hlp with ⟨hc, rfl⟩ | ⟨hc, rfl⟩
        · exact ⟨le_refl _, by rw [div_le_one hnpq]; exact hnp1⟩
        · constructor
          · rw [div_le_div_iff_of_pos_right hnpq]
            exact_mod_cast hc
          · rw [div_le_one hnpq]
            exact_mod_cast le_trans (List.length_filter_le _ _) (getD_length_le hrow i)
      · rcases hgp with ⟨hc, rfl⟩ | ⟨hc, rfl⟩
        · exact ⟨le_refl _, by rw [div_le_one hnpnfq]; exact hnpnf1⟩
        · constructor
          · rw [div_le_div_iff_of_pos_right hnpnfq]
            exact_mod_cast hc
          · rw [div_le_one hnpnfq]
            have hle : (as.filter (fun y => fgt y r.2.1)).length ≤ nf * np :=
              has ▸ List.length_filter_le _ _
            calc ((as.filter (fun y => fgt y r.2.1)).length : ℚ)
                ≤ ((nf * np : ℕ) : ℚ) := by exact_mod_cast hle
              _ = (np : ℚ) * (nf : ℚ) := by push_cast; ring
    · exact ih (i + 1) out2 hrest x hx2

lemma pvalLoop_ok_nan {α : Type} {ps : List (List F)} {as : List F} {np nf : ℕ} :
    ∀ (i : ℕ) (l : List (α × F × Option F)) (out : List (PRow α)),
      pvalLoop ps as np nf i l = .ok out →
      ∀ x ∈ out, x.score = none →
        x.localP = 1 / (np : ℚ) ∧ x.globalP = 1 / ((np : ℚ) * (nf : ℚ)) := by
  intro i l
  induction l generalizing i with
  | nil =>
    intro out h x hx
    rw [pvalLoop_nil_elim h] at hx
    simp at hx
  | cons r rest ih =>
    intro out h x hx hnan
    obtain ⟨lp, gp, out2, rfl, hcell, hrest⟩ := pvalLoop_cons_elim h
    rcases List.mem_cons.mp hx with rfl | hx2
    · obtain ⟨hnp, hnpnf, hlp, hgp⟩ := pvalCell_ok_elim hcell
      have hv : r.2.1 = none := hnan
      have hfilt : ∀ (l2 : List F), l2.filter (fun x => fgt x r.2.1) = [] := by
        intro l2
        rw [List.filter_eq_nil_iff]
        intro a _
        rw [hv, fgt_none]
        exact Bool.false_ne_true
      constructor
      · rcases hlp with ⟨-, rfl⟩ | ⟨hc, -⟩
        · rfl
        · rw [hfilt] at hc
          simp at hc
      · rcases hgp with ⟨-, rfl⟩ | ⟨hc, -⟩
        · rfl
        · rw [hfilt] at hc
          simp at hc
    · exact ih (i + 1) out2 hrest x hx2 hnan

lemma compute_ok_elim {α : Type} [LinearOrder α] [DecidableEq α]
    {ic : List F → List F → F} {moeStat : List F → F} {randCol : ℕ → ℕ → ℕ}
    {permRef : ℕ → List F} {feats : List (α × List F)} {ref : List F} {ncols : ℕ}
    {nfeatures : ℚ} {ascending : Bool} {nsampling nperm : ℕ} {t : ResultTable α}
    (hok : compute_against_reference "information_coef" ic moeStat randCol permRef
      feats ref ncols nfeatures ascending nsampling nperm = .ok t) :
    ∃ pv,
      pvalLoop (permStage ic permRef nperm feats)
        (permStage ic permRef nperm feats).flatten nperm feats.length 0
        (withMoE (scoreStage ic feats ref)
          (bootstrapMoE ic moeStat randCol feats ref (scoreStage ic feats ref)
            nfeatures nsampling ncols)) = .ok pv ∧
      t.moeCol = bootstrapMoE ic moeStat randCol feats ref (scoreStage ic feats ref)
        nfeatures nsampling ncols ∧
      t.rows = finalSort ascending (mergeStage pv (fdrStage feats pv)) := by
  unfold compute_against_reference at hok
  rw [if_pos rfl] at hok
  split at hok
  · simp at hok
  · rename_i pv heq
    injection hok with h2
    subst h2
    exact ⟨pv, heq, rfl, rfl⟩

lemma bootstrapMoE_none_iff {α : Type} [DecidableEq α] (ic : List F → List F → F)
    (moeStat : List F → F) (randCol : ℕ → ℕ → ℕ) (feats : List (α × List F))
    (ref : List F) (scores : List (α × F)) (nfeatures : ℚ) (nsampling ncols : ℕ) :
    bootstrapMoE ic moeStat randCol feats ref scores nfeatures nsampling ncols = none
      ↔ nsampling < 2 ∨ nsample ncols < 3 := by
  unfold bootstrapMoE
  split_ifs with h1 h2
  · simp [h1]
  · simp [h2]
  · simp [h1, h2]

/-- C2: for every successful run of the scoring engine with `n_perms ≥ 1` and at
least one surviving feature, every local p-value of the returned score table lies
in `[1/n_perms, 1]` and every global p-value lies in
`[1/(n_perms * n_features), 1]`; in particular no p-value is zero. -/
theorem C2_pvalue_ranges {α : Type} [LinearOrder α] [DecidableEq α]
    (ic : List F → List F → F) (moeStat : List F → F) (randCol : ℕ → ℕ → ℕ)
    (permRef : ℕ → List F) (feats : List (α × List F)) (ref : List F) (ncols : ℕ)
    (nfeatures : ℚ) (ascending : Bool) (nsampling nperm : ℕ) (t : ResultTable α)
    (_hnp : 1 ≤ nperm) (_hfeat : 1 ≤ feats.length)
    (hok : compute_against_reference "information_coef" ic moeStat randCol permRef
      feats ref ncols nfeatures ascending nsampling nperm = .ok t) :
    ∀ r ∈ t.rows,
      (1 / (nperm : ℚ) ≤ r.localP ∧ r.localP ≤ 1) ∧
      (1 / ((nperm : ℚ) * (feats.length : ℚ)) ≤ r.globalP ∧ r.globalP ≤ 1) := by
  obtain ⟨pv, hpl, hmoe, hrows⟩ := compute_ok_elim hok
  intro r hr
  rw [hrows, mem_finalSort] at hr
  unfold mergeStage at hr
  obtain ⟨x, hx, rfl⟩ := List.mem_map.mp hr
  exact pvalLoop_ok_bounds (permStage_row_length ic permRef nperm feats)
    (permStage_flatten_length ic permRef nperm feats) 0 _ pv hpl x hx

/-- C9: in every successful run, a feature whose true metric score is NaN has all
strict-greater comparisons against the null scores evaluate to False, so it
receives exactly the floor p-values `1/n_perms` locally and
`1/(n_perms * n_features)` globally. -/
theorem C9_nan_score_floor_pvalues {α : Type} [LinearOrder α] [DecidableEq α]
    (ic : List F → List F → F) (moeStat : List F → F) (randCol : ℕ → ℕ → ℕ)
    (permRef : ℕ → List F) (feats : List (α × List F)) (ref : List F) (ncols : ℕ)
    (nfeatures : ℚ) (ascending : Bool) (nsampling nperm : ℕ) (t : ResultTable α)
    (hok : compute_against_reference "information_coef" ic moeStat randCol permRef
      feats ref ncols nfeatures ascending nsampling nperm = .ok t) :
    ∀ r ∈ t.rows, r.score = none →
      r.localP = 1 / (nperm : ℚ) ∧
      r.globalP = 1 / ((nperm : ℚ) * (feats.length : ℚ)) := by
  obtain ⟨pv, hpl, hmoe, hrows⟩ := compute_ok_elim hok
  intro r hr hnan
  rw [hrows, mem_finalSort] at hr
  unfold mergeStage at hr
  obtain ⟨x, hx, rfl⟩ := List.mem_map.mp hr
  exact pvalLoop_ok_nan 0 _ pv hpl x hx hnan

/-- C10: with `n_perms = 0` and at least one feature row, the permutation-testing
stage is not skipped but raises `ZeroDivisionError` (the first local p-value
computes `sum(...) / 0`), so the engine returns no table; totality of the p-value
computation requires `n_perms ≥ 1`. -/
theorem C10_zero_perms_division_error {α : Type} [LinearOrder α] [DecidableEq α]
    (ic : List F → List F → F) (moeStat : List F → F) (randCol : ℕ → ℕ → ℕ)
    (permRef : ℕ → List F) (feats : List (α × List F)) (ref : List F) (ncols : ℕ)
    (nfeatures : ℚ) (ascending : Bool) (nsampling : ℕ)
    (hfeat : 1 ≤ feats.length) :
    compute_against_reference "information_coef" ic moeStat randCol permRef feats
      ref ncols nfeatures ascending nsampling 0 = .error "ZeroDivisionError" := by
  unfold compute_against_reference
  rw [if_pos rfl]
  have hlen : (withMoE (scoreStage ic feats ref)
      (bootstrapMoE ic moeStat randCol feats ref (scoreStage ic feats ref)
        nfeatures nsampling ncols)).length = feats.length := by
    rw [withMoE_length, scoreStage_length]
  obtain ⟨r, rest, hcons⟩ : ∃ r rest, withMoE (scoreStage ic feats ref)
      (bootstrapMoE ic moeStat randCol feats ref (scoreStage ic feats ref)
        nfeatures nsampling ncols) = r :: rest := by
    cases hW : withMoE (scoreStage ic feats ref)
        (bootstrapMoE ic moeStat randCol feats ref (scoreStage ic feats ref)
          nfeatures nsampling ncols) with
    | nil =>
      rw [hW] at hlen
      simp only [List.length_nil] at hlen
      omega
    | cons a l => exact ⟨a, l, rfl⟩
  rw [hcons, pvalLoop_zero_nperm]

/-- C5: in every successful run, the margin-of-error column is absent from the
result exactly when the configured replicate count is below 2 or the computed
per-replicate sample size `ceil(0.632 * n_columns)` is below 3; the run itself
still completes. -/
theorem C5_bootstrap_gate {α : Type} [LinearOrder α] [DecidableEq α]
    (ic : List F → List F → F) (moeStat : List F → F) (randCol : ℕ → ℕ → ℕ)
    (permRef : ℕ → List F) (feats : List (α × List F)) (ref : List F) (ncols : ℕ)
    (nfeatures : ℚ) (ascending : Bool) (nsampling nperm : ℕ) (t : ResultTable α)
    (hok : compute_against_reference "information_coef" ic moeStat randCol permRef
      feats ref ncols nfeatures ascending nsampling nperm = .ok t) :
    t.moeCol = none ↔ nsampling < 2 ∨ nsample ncols < 3 := by
  obtain ⟨pv, hpl, hmoe, hrows⟩ := compute_ok_elim hok
  rw [hmoe]
  exact bootstrapMoE_none_iff ic moeStat randCol feats ref
    (scoreStage ic feats ref) nfeatures nsampling ncols

/-- C8: with a zero-row feature matrix the engine returns an empty score table
instead of failing: score computation, bootstrap, permutation testing and FDR
correction all complete on the empty table. -/
theorem C8_empty_feature_matrix {α : Type} [LinearOrder α] [DecidableEq α]
    (ic : List F → List F → F) (moeStat : List F → F) (randCol : ℕ → ℕ → ℕ)
    (permRef : ℕ → List F) (ref : List F) (ncols : ℕ) (nfeatures : ℚ)
    (ascending : Bool) (nsampling nperm : ℕ) :
    ∃ t, compute_against_reference "information_coef" ic moeStat randCol permRef
      ([] : List (α × List F)) ref ncols nfeatures ascending nsampling nperm = .ok t
      ∧ t.rows = [] := by
  unfold compute_against_reference
  rw [if_pos rfl]
  have hW : withMoE (scoreStage ic ([] : List (α × List F)) ref)
      (bootstrapMoE ic moeStat randCol [] ref (scoreStage ic [] ref) nfeatures
        nsampling ncols) = [] := by
    have h0 := withMoE_length (scoreStage ic ([] : List (α × List F)) ref)
      (bootstrapMoE ic moeStat randCol [] ref (scoreStage ic [] ref) nfeatures
        nsampling ncols)
    rw [scoreStage_length] at h0
    exact List.length_eq_zero.mp h0
  rw [hW]
  have hfin : finalSort (α := α) ascending [] = [] := by
    unfold finalSort
    split <;> rfl
  simp only [pvalLoop, mergeStage, List.map_nil, hfin]
  exact ⟨_, rfl, rfl⟩

/-- C1 (code-bug evidence): the permutation p-value loop walks the metric-sorted
score table by position while indexing the null-score matrix, whose rows are in
the original feature order, by that same position.  At the concrete input below
the engine therefore computes feature B's local p-value from feature A's null
scores and reports local p-values A ↦ 1/2, B ↦ 1, while the specified
per-feature formula (count of the feature's own null scores strictly exceeding
its own true score, divided by n_perms, floored at 1/n_perms) yields 1/2 for
both features. -/
theorem C1_local_pvalue_misaligned :
    (compute_against_reference "information_coef" icDot moeNone randZero permRefC1
        featsC1 refC1 2 (95 / 100) false 0 2).toOption.map
      (fun t => t.rows.map (fun r => (r.name, r.localP)))
      = some [("A", 1 / 2), ("B", 1)]
    ∧ specLocalPval icDot featsC1 refC1 permRefC1 2 "B" = some (1 / 2)
    ∧ specLocalPval icDot featsC1 refC1 permRefC1 2 "A" = some (1 / 2) := by
  with_unfolding_all decide

/-- C6 counterexample: the claim fails on a score table containing a NaN metric
value — quantile selection with n = 0.5 does not select the NaN-scored feature
B, because every Python comparison with NaN is False. -/
theorem C6_quantile_half_counterexample :
    "B" ∈ ([("A", (some 1 : F)), ("B", none)].map Prod.fst) ∧
    "B" ∉ selectIndices [("A", (some 1 : F)), ("B", none)] (1 / 2 : ℚ) := by
  with_unfolding_all decide

lemma quantile_isSome_of_mem {vals : List F} {v : ℚ} (hv : some v ∈ vals)
    (q : ℚ) : ∃ m, quantile vals q = some m := by
  simp only [quantile]
  rw [if_neg ?hne]
  case hne =>
    intro hemp
    have hmem : v ∈ vals.filterMap id := List.mem_filterMap.mpr ⟨some v, hv, rfl⟩
    have hin := (List.mem_insertionSort qLe).mpr hmem
    rw [hemp] at hin
    simp at hin
  exact ⟨_, rfl⟩

/-- C6 (amended): on every score table, quantile selection with threshold n = 0.5
selects exactly the features whose metric value is not NaN, in table order: every
non-NaN-scored feature is selected, a NaN-scored feature's row is never selected
(its name is never selected when feature names are distinct), and on a table free
of NaN metric values all features of the table are selected. -/
theorem C6_quantile_half_selects_all {α : Type} (t : List (α × F)) :
    selectIndices t (1 / 2 : ℚ) = (t.filter (fun r => r.2.isSome)).map Prod.fst ∧
    (∀ r ∈ t, r.2 ≠ none → r.1 ∈ selectIndices t (1 / 2 : ℚ)) ∧
    ((t.map Prod.fst).Nodup →
      ∀ r ∈ t, r.2 = none → r.1 ∉ selectIndices t (1 / 2 : ℚ)) ∧
    ((∀ r ∈ t, r.2 ≠ none) → selectIndices t (1 / 2 : ℚ) = t.map Prod.fst) := by
  have hsel : selectIndices t (1 / 2 : ℚ) =
      (t.filter (fun r => r.2.isSome)).map Prod.fst := by
    unfold selectIndices
    rw [if_pos (by norm_num)]
    have h12 : (1 : ℚ) - 1 / 2 = 1 / 2 := by norm_num
    rw [h12]
    congr 1
    apply List.filter_congr
    intro r hr
    rcases hv : r.2 with _ | v
    · cases quantile (t.map Prod.snd) (1 / 2) <;> rfl
    · obtain ⟨m, hm⟩ := quantile_isSome_of_mem
        (hv ▸ List.mem_map_of_mem Prod.snd hr) (1 / 2)
      rw [hm]
      rcases le_total m v with h | h <;> simp [fge, fle, h]
  refine ⟨hsel, ?_, ?_, ?_⟩
  · intro r hr hnn
    rw [hsel]
    exact List.mem_map_of_mem Prod.fst
      (List.mem_filter.mpr ⟨hr, Option.isSome_iff_ne_none.mpr hnn⟩)
  · intro hnd r hr hnan hmem
    rw [hsel] at hmem
    obtain ⟨r2, hr2, he⟩ := List.mem_map.mp hmem
    obtain ⟨hr2t, hr2s⟩ := List.mem_filter.mp hr2
    have : r2 = r := List.inj_on_of_nodup_map hnd hr2t hr he
    rw [this, hnan] at hr2s
    simp at hr2s
  · intro hnn
    rw [hsel, List.filter_eq_self.mpr
      (fun r hr => Option.isSome_iff_ne_none.mpr (hnn r hr))]

/-- C7: the orchestration fails with EmptyIntersection, returning no result,
exactly when the feature-matrix column set and the reference index set have empty
intersection; otherwise it restricts both inputs to exactly the intersecting
columns (keeping every feature row). -/
theorem C7_empty_intersection {α : Type} [DecidableEq α] (f : Frame α)
    (ref : List (α × F)) :
    ((restrictToIntersection f ref = .error "EmptyIntersection") ↔
      ∀ c ∈ f.cols, c ∉ ref.map Prod.fst) ∧
    (∀ g r2, restrictToIntersection f ref = .ok (g, r2) →
      (∀ c, c ∈ g.cols ↔ c ∈ f.cols ∧ c ∈ ref.map Prod.fst) ∧
      r2.map Prod.fst = g.cols ∧
      g.rows.map Prod.fst = f.rows.map Prod.fst) := by
  unfold restrictToIntersection
  by_cases hI : f.cols.filter (fun c => decide (c ∈ ref.map Prod.fst)) = []
  · rw [if_pos hI]
    constructor
    · constructor
      · intro _ c hc hmem
        have hcf : c ∈ f.cols.filter (fun c => decide (c ∈ ref.map Prod.fst)) :=
          List.mem_filter.mpr ⟨hc, by simpa using hmem⟩
        rw [hI] at hcf
        simp at hcf
      · intro _
        rfl
    · intro g r2 h
      simp at h
  · rw [if_neg hI]
    constructor
    · constructor
      · intro h
        simp at h
      · intro hall
        exact absurd (List.filter_eq_nil_iff.mpr (fun c hc => by simpa using hall c hc)) hI
    · intro g r2 h
      injection h with h2
      injection h2 with hg hr
      subst hg
      subst hr
      refine ⟨?_, ?_, ?_⟩
      · intro c
        constructor
        · intro hc
          obtain ⟨h1, h2⟩ := List.mem_filter.mp hc
          exact ⟨h1, by simpa using h2⟩
        · intro ⟨h1, h2⟩
          exact List.mem_filter.mpr ⟨h1, by simpa using h2⟩
      · rw [List.map_map]
        simp [Function.comp_def]
      · rw [List.map_map]
        simp [Function.comp_def]

lemma selectIndices_nat {α : Type} (s : List (α × F)) (n : ℕ) (hn : 1 ≤ n) :
    selectIndices s (n : ℚ) =
      (s.take n).map Prod.fst ++ (s.drop (s.length - n)).map Prod.fst := by
  unfold selectIndices
  have h1 : ¬ ((n : ℚ) < 1) := not_lt.mpr (by exact_mod_cast hn)
  rw [if_neg h1, Int.floor_natCast, Int.toNat_natCast]

/-- C4: applied to the metric-sorted score table with an integer threshold n ≥ 1
and distinct feature names, the shared selection policy returns exactly the names
of the first n rows (the n lowest metric values) and the last n rows (the n
highest metric values); the selected feature set has at most 2n members, fewer
when the table has fewer than 2n rows, and when the table has at least 2n rows, it
is exactly 2n distinct features with no overlap between bottom-n and top-n. -/
theorem C4_selection_policy {α : Type} [DecidableEq α] (t : List (α × F)) (n : ℕ)
    (hn : 1 ≤ n) (hnd : (t.map Prod.fst).Nodup) :
    selectIndices (sortScores t) (n : ℚ) =
      ((sortScores t).take n).map Prod.fst ++
        ((sortScores t).drop ((sortScores t).length - n)).map Prod.fst ∧
    (∀ p ∈ (sortScores t).take n, ∀ q ∈ (sortScores t).drop n, rowLe p q) ∧
    (∀ p ∈ (sortScores t).take ((sortScores t).length - n),
       ∀ q ∈ (sortScores t).drop ((sortScores t).length - n), rowLe p q) ∧
    (selectIndices (sortScores t) (n : ℚ)).toFinset.card ≤ 2 * n ∧
    (t.length < 2 * n →
      (selectIndices (sortScores t) (n : ℚ)).toFinset.card < 2 * n) ∧
    (2 * n ≤ t.length →
      (selectIndices (sortScores t) (n : ℚ)).length = 2 * n ∧
      (selectIndices (sortScores t) (n : ℚ)).Nodup ∧
      List.Disjoint (((sortScores t).take n).map Prod.fst)
        (((sortScores t).drop ((sortScores t).length - n)).map Prod.fst)) := by
  have hsel := selectIndices_nat (sortScores t) n hn
  have hperm := List.perm_insertionSort rowLe t
  have hlen : (sortScores t).length = t.length := hperm.length_eq
  have hsort : List.Sorted rowLe (sortScores t) := List.sorted_insertionSort rowLe t
  have hnd2 : ((sortScores t).map Prod.fst).Nodup := (hperm.map Prod.fst).nodup_iff.mpr hnd
  refine ⟨hsel, ?_, ?_, ?_, ?_, ?_⟩
  · intro p hp q hq
    exact hsort.rel_of_mem_take_of_mem_drop hp hq
  · intro p hp q hq
    exact hsort.rel_of_mem_take_of_mem_drop hp hq
  · rw [hsel]
    calc (((sortScores t).take n).map Prod.fst ++
          ((sortScores t).drop ((sortScores t).length - n)).map Prod.fst).toFinset.card
        ≤ (((sortScores t).take n).map Prod.fst ++
          ((sortScores t).drop ((sortScores t).length - n)).map Prod.fst).length :=
          List.toFinset_card_le _
      _ ≤ 2 * n := by
          rw [List.length_append, List.length_map, List.length_map,
            List.length_take, List.length_drop]
          omega
  · intro hlt
    rw [hsel]
    have hsubset : (((sortScores t).take n).map Prod.fst ++
        ((sortScores t).drop ((sortScores t).length - n)).map Prod.fst).toFinset ⊆
        ((sortScores t).map Prod.fst).toFinset := by
      intro a ha
      rw [List.mem_toFinset] at ha ⊢
      rcases List.mem_append.mp ha with h | h
      · obtain ⟨p, hp, rfl⟩ := List.mem_map.mp h
        exact List.mem_map_of_mem Prod.fst (List.mem_of_mem_take hp)
      · obtain ⟨p, hp, rfl⟩ := List.mem_map.mp h
        exact List.mem_map_of_mem Prod.fst (List.mem_of_mem_drop hp)
    calc (((sortScores t).take n).map Prod.fst ++
          ((sortScores t).drop ((sortScores t).length - n)).map Prod.fst).toFinset.card
        ≤ (((sortScores t).map Prod.fst).toFinset).card := Finset.card_le_card hsubset
      _ ≤ ((sortScores t).map Prod.fst).length := List.toFinset_card_le _
      _ = t.length := by rw [List.length_map, hlen]
      _ < 2 * n := hlt
  · intro hge
    have hge2 : 2 * n ≤ (sortScores t).length := by omega
    have htl : ((sortScores t).take n).length = n :=
      List.length_take_of_le (by omega)
    have hdl : ((sortScores t).drop ((sortScores t).length - n)).length = n := by
      rw [List.length_drop]
      omega
    have h1 : (sortScores t).drop ((sortScores t).length - n) =
        ((sortScores t).drop n).drop ((sortScores t).length - 2 * n) := by
      rw [List.drop_drop]
      congr 1
      omega
    have hsub : List.Sublist
        ((sortScores t).take n ++ (sortScores t).drop ((sortScores t).length - n))
        (sortScores t) := by
      have h2 : List.Sublist
          ((sortScores t).take n ++ (sortScores t).drop ((sortScores t).length - n))
          ((sortScores t).take n ++ (sortScores t).drop n) := by
        rw [h1]
        exact (List.drop_sublist _ _).append_left _
      rw [List.take_append_drop] at h2
      exact h2
    have hmap : List.Sublist
        (((sortScores t).take n).map Prod.fst ++
          ((sortScores t).drop ((sortScores t).length - n)).map Prod.fst)
        ((sortScores t).map Prod.fst) := by
      rw [← List.map_append]
      exact hsub.map Prod.fst
    have hnodup : (((sortScores t).take n).map Prod.fst ++
        ((sortScores t).drop ((sortScores t).length - n)).map Prod.fst).Nodup :=
      hnd2.sublist hmap
    refine ⟨?_, ?_, ?_⟩
    · rw [hsel, List.length_append, List.length_map, List.length_map, htl, hdl]
      omega
    · rw [hsel]
      exact hnodup
    · exact (List.nodup_append.mp hnodup).2.2

/-- Witness for C2 at a concrete run (`n_perms = 1`, two features). -/
theorem C2_pvalue_ranges_witness :
    (1 / ((1 : ℕ) : ℚ) ≤ rowBN.localP ∧ rowBN.localP ≤ 1) ∧
    (1 / (((1 : ℕ) : ℚ) * (featsN.length : ℚ)) ≤ rowBN.globalP ∧ rowBN.globalP ≤ 1) :=
  C2_pvalue_ranges icDot moeNone randZero permRefN featsN refN 1 (95 / 100) false 0 1
    tN (by decide) (by decide) (by with_unfolding_all decide) rowBN
    (by with_unfolding_all decide)

/-- Witness for C9 at the same concrete run: the NaN-scored feature A receives
exactly the floor p-values. -/
theorem C9_nan_score_floor_pvalues_witness :
    rowAN.localP = 1 / ((1 : ℕ) : ℚ) ∧
    rowAN.globalP = 1 / (((1 : ℕ) : ℚ) * (featsN.length : ℚ)) :=
  C9_nan_score_floor_pvalues icDot moeNone randZero permRefN featsN refN 1
    (95 / 100) false 0 1 tN (by with_unfolding_all decide) rowAN
    (by with_unfolding_all decide) (by with_unfolding_all decide)

/-- Witness for C5 at the same concrete run: with `n_samplings = 0` the
margin-of-error column is absent. -/
theorem C5_bootstrap_gate_witness :
    tN.moeCol = none ↔ 0 < 2 ∨ nsample 1 < 3 :=
  C5_bootstrap_gate icDot moeNone randZero permRefN featsN refN 1 (95 / 100) false
    0 1 tN (by with_unfolding_all decide)

/-- Witness for C10: the engine raises `ZeroDivisionError` at a concrete
nonempty input with `n_perms = 0`. -/
theorem C10_zero_perms_division_error_witness :
    compute_against_reference "information_coef" icDot moeNone randZero permRefN
      featsN refN 1 (95 / 100) false 0 0 = .error "ZeroDivisionError" :=
  C10_zero_perms_division_error icDot moeNone randZero permRefN featsN refN 1
    (95 / 100) false 0 (by decide)

/-- Witness for C8: the engine returns an empty table at a concrete zero-row
input. -/
theorem C8_empty_feature_matrix_witness :
    ∃ t, compute_against_reference "information_coef" icDot moeNone randZero
      permRefN ([] : List (String × List F)) refN 1 (95 / 100) false 0 1 = .ok t ∧
      t.rows = [] :=
  C8_empty_feature_matrix icDot moeNone randZero permRefN refN 1 (95 / 100) false 0 1

/-- Witness for C6 (amended) on a concrete mixed score table: the non-NaN feature
A is selected while the NaN-scored feature B is not. -/
theorem C6_quantile_half_selects_all_witness :
    "A" ∈ selectIndices [("A", (some 1 : F)), ("B", (none : F))] (1 / 2 : ℚ) ∧
    "B" ∉ selectIndices [("A", (some 1 : F)), ("B", (none : F))] (1 / 2 : ℚ) :=
  ⟨(C6_quantile_half_selects_all [("A", (some 1 : F)), ("B", (none : F))]).2.1
      ("A", (some 1 : F)) (by decide) (by decide),
   (C6_quantile_half_selects_all [("A", (some 1 : F)), ("B", (none : F))]).2.2.1
      (by decide) ("B", (none : F)) (by decide) rfl⟩

/-- Witness for C7: at a concrete disjoint frame/reference pair the orchestration
fails with `EmptyIntersection`. -/
theorem C7_empty_intersection_witness :
    restrictToIntersection frameC7 refC7 = .error "EmptyIntersection" :=
  (C7_empty_intersection frameC7 refC7).1.mpr (by with_unfolding_all decide)

/-- Witness for C4 on a concrete four-row, distinct-name table with n = 2. -/
theorem C4_selection_policy_witness :
    selectIndices (sortScores t4C) ((2 : ℕ) : ℚ) =
      ((sortScores t4C).take 2).map Prod.fst ++
        ((sortScores t4C).drop ((sortScores t4C).length - 2)).map Prod.fst ∧
    (∀ p ∈ (sortScores t4C).take 2, ∀ q ∈ (sortScores t4C).drop 2, rowLe p q) ∧
    (∀ p ∈ (sortScores t4C).take ((sortScores t4C).length - 2),
       ∀ q ∈ (sortScores t4C).drop ((sortScores t4C).length - 2), rowLe p q) ∧
    (selectIndices (sortScores t4C) ((2 : ℕ) : ℚ)).toFinset.card ≤ 2 * 2 ∧
    (t4C.length < 2 * 2 →
      (selectIndices (sortScores t4C) ((2 : ℕ) : ℚ)).toFinset.card < 2 * 2) ∧
    (2 * 2 ≤ t4C.length →
      (selectIndices (sortScores t4C) ((2 : ℕ) : ℚ)).length = 2 * 2 ∧
      (selectIndices (sortScores t4C) ((2 : ℕ) : ℚ)).Nodup ∧
      List.Disjoint (((sortScores t4C).take 2).map Prod.fst)
        (((sortScores t4C).drop ((sortScores t4C).length - 2)).map Prod.fst)) :=
  C4_selection_policy t4C 2 (by decide) (by with_unfolding_all decide)
